import Mathlib

/-!
Verification of the Expense-Tracker backend (Express + in-memory storage).

Shallow embedding of the code in `src/server/routes.ts` (route handlers and
the `MemStorage` class) and `src/shared/schema.ts` (the zod insert schema).

Modelling decisions:
* A JS `Map<number, Expense>` is a list of key-value pairs in insertion
  order; `Map.set` replaces in place when the key is present and appends
  otherwise, `Map.get` / `Map.delete` search by key.  Keys created by the
  store are naturals; route handlers may probe with any integer produced
  by `parseInt`, so lookups take an `Int`.
* `new Date()` is modelled by an explicit `now : Nat` argument (epoch
  milliseconds); `Array.prototype.sort` with the comparator
  `(a, b) => b.createdAt - a.createdAt` is modelled by the stable
  `List.insertionSort` on the decidable total preorder `createdDesc`.
* A JS number is modelled as an exact rational; `Number.prototype.toString`
  on a rational with a finite decimal expansion prints the shortest decimal
  form (no trailing zeros), which is what JS prints for such values.
* `parseInt(s)` (radix unspecified) skips leading whitespace, reads an
  optional sign, switches to hexadecimal after a `0x`/`0X` prefix, and takes
  the longest prefix of digits, returning NaN (here `none`) when empty.
-/

/-- The stored record, mirroring the `Expense` row type of `schema.ts`:
`amount` is a string-encoded decimal, `createdAt` a timestamp. -/
structure Expense where
  id : Nat
  amount : String
  descr : String
  category : String
  createdAt : Nat
deriving DecidableEq

/-- The validated POST payload (`InsertExpense` in `schema.ts`): a JS number
amount, a description string and a category string. -/
structure InsertExpense where
  amount : ℚ
  descr : String
  category : String
deriving DecidableEq

/-- A JS `Map<number, Expense>`: key-value pairs in insertion order. -/
abbrev ExpenseMap := List (Nat × Expense)

/-- `Map.get(k)` probed with an arbitrary integer key. -/
def mapGet (m : ExpenseMap) (k : Int) : Option Expense :=
  (m.find? (fun p => ((p.1 : Int) == k))).map (fun p => p.2)

/-- `Map.set(k, v)`: replace in place if the key is present, else append. -/
def mapSet (m : ExpenseMap) (k : Nat) (v : Expense) : ExpenseMap :=
  if m.any (fun p => p.1 == k) then
    m.map (fun p => if p.1 == k then (k, v) else p)
  else m ++ [(k, v)]

/-- `Map.delete(k)`: whether the key was present, and the remaining map. -/
def mapDelete (m : ExpenseMap) (k : Int) : Bool × ExpenseMap :=
  (m.any (fun p => ((p.1 : Int) == k)), m.filter (fun p => ((p.1 : Int) != k)))

/-- `Map.values()` in insertion order. -/
def mapValues (m : ExpenseMap) : List Expense := m.map (fun p => p.2)

/-- The `MemStorage` instance state: the map of expenses and the id counter. -/
structure MemStorage where
  expenses : ExpenseMap
  currentId : Nat
deriving DecidableEq

/-- The constructor: `this.expenses = new Map(); this.currentId = 1;`. -/
def MemStorage.init : MemStorage := ⟨[], 1⟩

/-- The sort order used by `getExpenses`: descending `createdAt`
(the JS comparator returns `b.createdAt - a.createdAt`). -/
def createdDesc (a b : Expense) : Prop := b.createdAt ≤ a.createdAt

instance : DecidableRel createdDesc := fun a b =>
  inferInstanceAs (Decidable (b.createdAt ≤ a.createdAt))

instance : IsTotal Expense createdDesc := ⟨fun a b => le_total b.createdAt a.createdAt⟩

instance : IsTrans Expense createdDesc := ⟨fun _ _ _ hab hbc => le_trans hbc hab⟩

/-- Smallest exponent `k` (searched up to 64) with `den ∣ 10 ^ k`. -/
def pow10Exponent (den : Nat) : Nat :=
  (((List.range 64).find? (fun k => decide (den ∣ 10 ^ k))).getD 0)

/-- Left-pad a digit string with zeros to length `k`. -/
def padZeros (k : Nat) (s : String) : String :=
  String.mk (List.replicate (k - s.length) '0') ++ s

/-- `Number.prototype.toString` on a JS number holding an exact decimal
value: the shortest decimal numeral, with no trailing fractional zeros and
no decimal point for integers (so `(250.5).toString() = "250.5"`). -/
def jsNumToString (q : ℚ) : String :=
  let sign := if q < 0 then "-" else ""
  let n := q.num.natAbs
  let k := pow10Exponent q.den
  let scaled := n * 10 ^ k / q.den
  let intPart := scaled / 10 ^ k
  let fracPart := scaled % 10 ^ k
  if k = 0 then sign ++ toString intPart
  else sign ++ toString intPart ++ "." ++ padZeros k (toString fracPart)

/-- `MemStorage.getExpenses`: all values, sorted by `createdAt` descending. -/
def getExpenses (s : MemStorage) : List Expense :=
  List.insertionSort createdDesc (mapValues s.expenses)

/-- `MemStorage.getExpense(id)`: map lookup. -/
def getExpense (s : MemStorage) (id : Int) : Option Expense :=
  mapGet s.expenses id

/-- `MemStorage.createExpense(insertExpense)`: take the next id, post-increment
the counter, build the record with `amount.toString()` and the current time,
store it, return it. -/
def createExpense (s : MemStorage) (p : InsertExpense) (now : Nat) :
    Expense × MemStorage :=
  let id := s.currentId
  let e : Expense :=
    { id := id, amount := jsNumToString p.amount, descr := p.descr,
      category := p.category, createdAt := now }
  (e, { expenses := mapSet s.expenses id e, currentId := s.currentId + 1 })

/-- `MemStorage.deleteExpense(id)`: `Map.delete`, reporting whether a record
was removed. -/
def deleteExpense (s : MemStorage) (id : Int) : Bool × MemStorage :=
  let r := mapDelete s.expenses id
  (r.1, { expenses := r.2, currentId := s.currentId })

/-- `MemStorage.getExpensesByCategory(category)`: filter the values by strict
string equality on `category`, then sort by `createdAt` descending. -/
def getExpensesByCategory (s : MemStorage) (c : String) : List Expense :=
  List.insertionSort createdDesc
    ((mapValues s.expenses).filter (fun e => e.category == c))

/-- The category enum of `insertExpenseSchema` in `schema.ts`. -/
def categoryEnum : List String :=
  ["food", "transport", "shopping", "entertainment", "utilities",
   "healthcare", "education", "others"]

/-- A field-level validation issue as reported by zod (`error.errors`). -/
structure FieldError where
  path : String
  message : String
deriving DecidableEq

/-- `insertExpenseSchema.parse` on a type-correct body: collect the issues of
`z.number().positive()`, `z.string().min(1).max(100)` and the category enum.
An empty list means the payload parsed. -/
def validateInsertExpense (amount : ℚ) (descr cat : String) : List FieldError :=
  (if amount ≤ 0 then [⟨"amount", "Amount must be positive"⟩] else []) ++
  (if descr.length < 1 then [⟨"description", "Description is required"⟩] else []) ++
  (if descr.length > 100 then [⟨"description", "Description too long"⟩] else []) ++
  (if cat ∈ categoryEnum then [] else [⟨"category", "Invalid enum value"⟩])

/-- Result of the POST `/api/expenses` handler: status code, created record
(on 201), validation issues (on 400), and the store state afterwards. -/
structure PostResult where
  status : Nat
  body : Option Expense
  errors : List FieldError
  state : MemStorage
deriving DecidableEq

/-- The POST `/api/expenses` handler: parse the body against the schema;
on a `ZodError` answer 400 with the issue list, otherwise create and
answer 201 with the record. -/
def postExpensesHandler (s : MemStorage) (amount : ℚ) (descr cat : String)
    (now : Nat) : PostResult :=
  let errs := validateInsertExpense amount descr cat
  if errs.isEmpty then
    let r := createExpense s ⟨amount, descr, cat⟩ now
    ⟨201, some r.1, [], r.2⟩
  else ⟨400, none, errs, s⟩

/-- Longest prefix of decimal digits, as a number. -/
def decDigitsVal (l : List Char) : Nat :=
  l.foldl (fun a c => a * 10 + (c.toNat - 48)) 0

/-- Hexadecimal digit test. -/
def isHexDigit (c : Char) : Bool :=
  c.isDigit || ('a' ≤ c && c ≤ 'f') || ('A' ≤ c && c ≤ 'F')

/-- Value of one hexadecimal digit. -/
def hexDigitVal (c : Char) : Nat :=
  if c.isDigit then c.toNat - 48
  else if 'a' ≤ c && c ≤ 'f' then c.toNat - 87
  else c.toNat - 55

/-- Longest prefix of hexadecimal digits, as a number. -/
def hexDigitsVal (l : List Char) : Nat :=
  l.foldl (fun a c => a * 16 + hexDigitVal c) 0

/-- JS `parseInt(s)` with no radix argument: skip leading whitespace, read an
optional sign, switch to base 16 after a `0x`/`0X` prefix, take the longest
prefix of digits; `none` models NaN (no digits at all). -/
def jsParseInt (s : String) : Option Int :=
  let cs0 := s.toList.dropWhile Char.isWhitespace
  let signed : Bool × List Char :=
    match cs0 with
    | '-' :: rest => (true, rest)
    | '+' :: rest => (false, rest)
    | _ => (false, cs0)
  let hexed : Bool × List Char :=
    match signed.2 with
    | '0' :: 'x' :: rest => (true, rest)
    | '0' :: 'X' :: rest => (true, rest)
    | _ => (false, signed.2)
  let digits := if hexed.1 then signed.2.tail.tail.takeWhile isHexDigit
                else signed.2.takeWhile Char.isDigit
  if digits.isEmpty then none
  else
    let v : Nat := if hexed.1 then hexDigitsVal digits else decDigitsVal digits
    some (if signed.1 then -(v : Int) else (v : Int))

/-- The GET `/api/expenses/:id` handler: 400 when `parseInt` gives NaN, 404
when the looked-up expense is absent, otherwise 200 with the record. -/
def getExpenseByIdHandler (s : MemStorage) (idParam : String) :
    Nat × Option Expense :=
  match jsParseInt idParam with
  | none => (400, none)
  | some id =>
    match getExpense s id with
    | none => (404, none)
    | some e => (200, some e)

/-- The DELETE `/api/expenses/:id` handler: 400 when `parseInt` gives NaN,
404 when nothing was deleted, otherwise 200; returns the state afterwards. -/
def deleteExpenseHandler (s : MemStorage) (idParam : String) :
    Nat × MemStorage :=
  match jsParseInt idParam with
  | none => (400, s)
  | some id =>
    let r := deleteExpense s id
    if r.1 then (200, r.2) else (404, r.2)

/-- The GET `/api/expenses` handler: the guard `category && typeof category`
being a non-empty string is truthy exactly for a present, non-empty string
parameter, in which case the filtered listing is used; otherwise the full
listing. -/
def listExpensesHandler (s : MemStorage) (category : Option String) :
    List Expense :=
  match category with
  | some c => if c.isEmpty then getExpenses s else getExpensesByCategory s c
  | none => getExpenses s

/-- A store operation of a client session: a validated create (with its wall
clock time) or a delete. -/
inductive Op where
  | create (p : InsertExpense) (now : Nat) : Op
  | delete (id : Int) : Op

/-- Apply one operation to the store. -/
def applyOp (s : MemStorage) : Op → MemStorage
  | .create p now => (createExpense s p now).2
  | .delete id => (deleteExpense s id).2

/-- Run a sequence of operations. -/
def runOps (s : MemStorage) : List Op → MemStorage
  | [] => s
  | op :: rest => runOps (applyOp s op) rest

/-- The ids handed out by the create calls of a run, in call order. -/
def idsOf (s : MemStorage) : List Op → List Nat
  | [] => []
  | .create p now :: rest =>
      (createExpense s p now).1.id :: idsOf (createExpense s p now).2 rest
  | .delete id :: rest => idsOf (deleteExpense s id).2 rest

/-- Number of create calls in a run. -/
def countCreates : List Op → Nat
  | [] => 0
  | .create _ _ :: rest => countCreates rest + 1
  | .delete _ :: rest => countCreates rest

/-- A store state the program can actually be in: reachable from the
freshly constructed store by some sequence of operations. -/
def Reachable (s : MemStorage) : Prop :=
  ∃ ops : List Op, runOps MemStorage.init ops = s

/-- Modelled from the spec: the path id parameter is "a valid integer" when,
as written, it is an optional sign followed by decimal digits only. -/
def specValidIntegerString (s : String) : Bool :=
  let cs := s.toList
  let body := match cs with
    | '-' :: rest => rest
    | '+' :: rest => rest
    | _ => cs
  !body.isEmpty && body.all Char.isDigit

/-! ### Helper lemmas about the map model -/

theorem intBeq_of_natBeq (a k : Nat) : ((a : Int) == (k : Int)) = (a == k) := by
  rw [Bool.eq_iff_iff]
  simp [beq_iff_eq]

theorem find?_map_replace (t : ExpenseMap) (k : Nat) (v : Expense)
    (h : t.any (fun p => p.1 == k) = true) :
    List.find? (fun p => ((p.1 : Int) == (k : Int)))
      (t.map (fun p => if p.1 == k then (k, v) else p)) = some (k, v) := by
  induction t with
  | nil => simp at h
  | cons a t ih =>
    by_cases hk : (a.1 == k) = true
    · rw [List.map_cons, if_pos hk, List.find?_cons_of_pos]
      simp
    · have ht : t.any (fun p => p.1 == k) = true := by
        simpa [List.any_cons, hk] using h
      rw [List.map_cons, if_neg hk, List.find?_cons_of_neg]
      · exact ih ht
      · rw [intBeq_of_natBeq]
        exact hk

theorem mapGet_mapSet_self (m : ExpenseMap) (k : Nat) (v : Expense) :
    mapGet (mapSet m k v) (k : Int) = some v := by
  unfold mapGet mapSet
  by_cases h : m.any (fun p => p.1 == k) = true
  · rw [if_pos h, find?_map_replace m k v h]
    rfl
  · rw [if_neg h]
    have h' : m.any (fun p => p.1 == k) = false := Bool.eq_false_iff.mpr h
    have hnone : m.find? (fun p => ((p.1 : Int) == (k : Int))) = none := by
      rw [List.find?_eq_none]
      intro x hx
      have hx' := (List.any_eq_false.mp h') x hx
      simpa [intBeq_of_natBeq] using hx'
    rw [List.find?_append, hnone]
    simp

theorem getExpense_none_iff_any (s : MemStorage) (n : Int) :
    getExpense s n = none ↔
      s.expenses.any (fun p => ((p.1 : Int) == n)) = false := by
  rw [getExpense, mapGet, Option.map_eq_none', List.find?_eq_none, List.any_eq_false]

/-! ### C1: create followed by get -/

/-- C1: for every valid input payload (positive amount, non-empty description
of at most 100 characters, category in the enum), `createExpense` followed by
`getExpense` at the id of the returned record yields that very record. -/
theorem create_then_get (s : MemStorage) (p : InsertExpense) (now : Nat)
    (hamt : 0 < p.amount) (hd1 : p.descr ≠ "") (hd2 : p.descr.length ≤ 100)
    (hcat : p.category ∈ categoryEnum) :
    getExpense (createExpense s p now).2 ((createExpense s p now).1.id : Int) =
      some (createExpense s p now).1 := by
  simp only [createExpense, getExpense]
  exact mapGet_mapSet_self s.expenses s.currentId _

/-- Witness for C1 at the payload (250.50, "Lunch", "food") on a fresh store. -/
theorem create_then_get_witness :
    getExpense (createExpense MemStorage.init ⟨mkRat 501 2, "Lunch", "food"⟩ 0).2
        ((createExpense MemStorage.init ⟨mkRat 501 2, "Lunch", "food"⟩ 0).1.id : Int) =
      some (createExpense MemStorage.init ⟨mkRat 501 2, "Lunch", "food"⟩ 0).1 :=
  create_then_get MemStorage.init ⟨mkRat 501 2, "Lunch", "food"⟩ 0
    (by decide) (by decide) (by decide) (by decide)

/-! ### C2: sequential ids -/

theorem idsOf_eq_range' : ∀ (ops : List Op) (s : MemStorage),
    idsOf s ops = List.range' s.currentId (countCreates ops)
  | [], _ => rfl
  | Op.create p now :: rest, s => by
      rw [idsOf, countCreates, List.range'_succ]
      exact congrArg _ (idsOf_eq_range' rest _)
  | Op.delete id :: rest, s => idsOf_eq_range' rest _

/-- C2: starting from the fresh store, the ids handed out by the create calls
of any operation sequence are 1, 2, 3, ... in order (incrementing by one per
create, regardless of interleaved deletes), hence never assigned twice. -/
theorem create_ids_sequential (ops : List Op) :
    idsOf MemStorage.init ops = List.range' 1 (countCreates ops) ∧
      (idsOf MemStorage.init ops).Nodup := by
  have h := idsOf_eq_range' ops MemStorage.init
  exact ⟨h, h ▸ List.nodup_range' 1 (countCreates ops)⟩

/-! ### C4: listing is a sorted permutation -/

/-- C4: `getExpenses` returns exactly the stored expenses (a permutation of
the map values), ordered by `createdAt` descending; it is a total function,
so it never fails. -/
theorem list_all_sorted (s : MemStorage) :
    (getExpenses s).Perm (mapValues s.expenses) ∧
      List.Sorted createdDesc (getExpenses s) :=
  ⟨List.perm_insertionSort createdDesc (mapValues s.expenses),
   List.sorted_insertionSort createdDesc (mapValues s.expenses)⟩

/-! ### C5: category filtering -/

theorem createdDesc_trans {a b c : Expense} (hab : createdDesc a b)
    (hbc : createdDesc b c) : createdDesc a c :=
  le_trans hbc hab

theorem orderedInsert_filter_neg (p : Expense → Bool) (a : Expense)
    (l : List Expense) (ha : p a = false) :
    (List.orderedInsert createdDesc a l).filter p = l.filter p := by
  induction l with
  | nil => simp [ha]
  | cons b t ih =>
    rw [List.orderedInsert]
    split_ifs with hr
    · simp [List.filter_cons, ha]
    · simp only [List.filter_cons, ih]

theorem orderedInsert_forall (a : Expense) (l : List Expense)
    (h : ∀ x ∈ l, createdDesc a x) :
    List.orderedInsert createdDesc a l = a :: l := by
  cases l with
  | nil => rfl
  | cons c t => exact List.orderedInsert_of_le createdDesc t (h c (List.mem_cons_self c t))

theorem orderedInsert_filter_pos (p : Expense → Bool) (a : Expense)
    (l : List Expense) (ha : p a = true) (hs : List.Sorted createdDesc l) :
    (List.orderedInsert createdDesc a l).filter p =
      List.orderedInsert createdDesc a (l.filter p) := by
  induction l with
  | nil => simp [ha]
  | cons b t ih =>
    rw [List.orderedInsert]
    split_ifs with hr
    · by_cases hb : p b = true
      · simp [List.filter_cons, ha, hb, List.orderedInsert, hr]
      · have hb' : p b = false := Bool.eq_false_iff.mpr hb
        simp only [List.filter_cons, ha, hb', if_true, if_false, Bool.false_eq_true,
          if_pos rfl]
        rw [orderedInsert_forall]
        intro x hx
        exact createdDesc_trans hr
          (List.rel_of_sorted_cons hs x (List.mem_of_mem_filter hx))
    · by_cases hb : p b = true
      · simp only [List.filter_cons, hb, ih hs.of_cons, List.orderedInsert, if_neg hr]
        simp
      · have hb' : p b = false := Bool.eq_false_iff.mpr hb
        simp only [List.filter_cons, hb', Bool.false_eq_true, if_false,
          ih hs.of_cons]

theorem insertionSort_filter_comm (p : Expense → Bool) :
    ∀ l : List Expense,
      List.insertionSort createdDesc (l.filter p) =
        (List.insertionSort createdDesc l).filter p := by
  intro l
  induction l with
  | nil => rfl
  | cons a t ih =>
    by_cases ha : p a = true
    · rw [List.filter_cons, if_pos ha, List.insertionSort, ih,
        List.insertionSort,
        orderedInsert_filter_pos p a _ ha
          (List.sorted_insertionSort createdDesc t)]
    · have ha' : p a = false := Bool.eq_false_iff.mpr ha
      rw [List.filter_cons, if_neg ha, ih, List.insertionSort,
        orderedInsert_filter_neg p a _ ha']

/-- C5: `getExpensesByCategory c` is exactly the subsequence of `getExpenses`
whose elements have category `c`, in the same relative order; and for a
category value outside the recognized enum that no stored expense carries,
the result is empty. -/
theorem listByCategory_filter (s : MemStorage) (c : String) :
    getExpensesByCategory s c =
        (getExpenses s).filter (fun e => e.category == c) ∧
      ((c ∉ categoryEnum ∧ ∀ e ∈ mapValues s.expenses, e.category ≠ c) →
        getExpensesByCategory s c = []) := by
  constructor
  · exact insertionSort_filter_comm (fun e => e.category == c) (mapValues s.expenses)
  · rintro ⟨-, h⟩
    have hnil : (mapValues s.expenses).filter (fun e => e.category == c) = [] := by
      rw [List.filter_eq_nil_iff]
      intro e he
      simpa using h e he
    rw [getExpensesByCategory, hnil]
    rfl

/-- Witness for C5 on the fresh store with the unrecognized category
"travel". -/
theorem listByCategory_filter_witness :
    getExpensesByCategory MemStorage.init "travel" =
        (getExpenses MemStorage.init).filter (fun e => e.category == "travel") ∧
      getExpensesByCategory MemStorage.init "travel" = [] :=
  ⟨(listByCategory_filter MemStorage.init "travel").1,
   (listByCategory_filter MemStorage.init "travel").2 (by decide)⟩

/-! ### C8: delete of an absent id -/

/-- C8: deleting an id that is not in the store returns `false` and leaves the
whole store state, in particular the listing, unchanged. -/
theorem delete_absent (s : MemStorage) (id : Int)
    (h : getExpense s id = none) :
    deleteExpense s id = (false, s) ∧
      getExpenses (deleteExpense s id).2 = getExpenses s := by
  have hany : s.expenses.any (fun p => ((p.1 : Int) == id)) = false :=
    (getExpense_none_iff_any s id).mp h
  have hfil : s.expenses.filter (fun p => ((p.1 : Int) != id)) = s.expenses := by
    rw [List.filter_eq_self]
    intro a ha
    have := (List.any_eq_false.mp hany) a ha
    simpa [bne] using this
  have heq : deleteExpense s id = (false, s) := by
    rw [deleteExpense, mapDelete, hany, hfil]
  exact ⟨heq, by rw [heq]⟩

/-- Witness for C8: deleting id 1 from the fresh (empty) store. -/
theorem delete_absent_witness :
    deleteExpense MemStorage.init 1 = (false, MemStorage.init) ∧
      getExpenses (deleteExpense MemStorage.init 1).2 =
        getExpenses MemStorage.init :=
  delete_absent MemStorage.init 1 (by decide)

/-! ### C7: id handler status codes -/

/-- C7 (amended): both id handlers answer 400 exactly when `parseInt` on the
path parameter yields NaN; when it yields an integer `n` — which for a
parameter such as "5.5" is the leading-digits value, even though the
parameter is not a valid integer — they answer 404 when no expense with id
`n` exists and 200 otherwise. -/
theorem id_handlers_status (s : MemStorage) (idParam : String) :
    (jsParseInt idParam = none →
      (getExpenseByIdHandler s idParam).1 = 400 ∧
        (deleteExpenseHandler s idParam).1 = 400) ∧
    (∀ n : Int, jsParseInt idParam = some n →
      (getExpense s n = none →
        (getExpenseByIdHandler s idParam).1 = 404 ∧
          (deleteExpenseHandler s idParam).1 = 404) ∧
      (getExpense s n ≠ none →
        (getExpenseByIdHandler s idParam).1 = 200 ∧
          (deleteExpenseHandler s idParam).1 = 200)) := by
  constructor
  · intro hnan
    simp [getExpenseByIdHandler, deleteExpenseHandler, hnan]
  · intro n hn
    constructor
    · intro habs
      have hany : s.expenses.any (fun p => ((p.1 : Int) == n)) = false :=
        (getExpense_none_iff_any s n).mp habs
      simp [getExpenseByIdHandler, deleteExpenseHandler, hn, habs,
        deleteExpense, mapDelete, hany]
    · intro hpres
      obtain ⟨e, he⟩ := Option.ne_none_iff_exists'.mp hpres
      have hany : s.expenses.any (fun p => ((p.1 : Int) == n)) = true := by
        by_contra hc
        have : getExpense s n = none :=
          (getExpense_none_iff_any s n).mpr (Bool.eq_false_iff.mpr hc)
        exact hpres this
      simp [getExpenseByIdHandler, deleteExpenseHandler, hn, he,
        deleteExpense, mapDelete, hany]

/-- Counterexample for C7 as stated: the path parameter "5.5" is not a valid
integer, yet on the fresh store both handlers answer 404 (from
`parseInt("5.5") = 5`), not the 400 the claim requires. -/
theorem id_handlers_non_integer_not_400 :
    specValidIntegerString "5.5" = false ∧
      (getExpenseByIdHandler MemStorage.init "5.5").1 = 404 ∧
      (deleteExpenseHandler MemStorage.init "5.5").1 = 404 := by
  decide

/-- Witness for the amended C7: a NaN parameter on the fresh store, an absent
id on the fresh store, and a present id on a one-expense store. -/
theorem id_handlers_status_witness :
    ((getExpenseByIdHandler MemStorage.init "abc").1 = 400 ∧
      (deleteExpenseHandler MemStorage.init "abc").1 = 400) ∧
    ((getExpenseByIdHandler MemStorage.init "7").1 = 404 ∧
      (deleteExpenseHandler MemStorage.init "7").1 = 404) ∧
    ((getExpenseByIdHandler
        (createExpense MemStorage.init ⟨mkRat 5 1, "tea", "food"⟩ 0).2 "1").1 = 200 ∧
      (deleteExpenseHandler
        (createExpense MemStorage.init ⟨mkRat 5 1, "tea", "food"⟩ 0).2 "1").1 = 200) :=
  ⟨(id_handlers_status MemStorage.init "abc").1 (by decide),
   ((id_handlers_status MemStorage.init "7").2 7 (by decide)).1 (by decide),
   ((id_handlers_status
      (createExpense MemStorage.init ⟨mkRat 5 1, "tea", "food"⟩ 0).2 "1").2 1
        (by decide)).2 (by decide)⟩

/-! ### C6: POST validation -/

theorem validate_eq_nil (amount : ℚ) (descr cat : String)
    (h : validateInsertExpense amount descr cat = []) :
    0 < amount ∧ descr ≠ "" ∧ descr.length ≤ 100 ∧ cat ∈ categoryEnum := by
  unfold validateInsertExpense at h
  rw [List.append_eq_nil, List.append_eq_nil, List.append_eq_nil] at h
  obtain ⟨⟨⟨h1, h2⟩, h3⟩, h4⟩ := h
  refine ⟨?_, ?_, ?_, ?_⟩
  · by_contra hc
    rw [if_pos (le_of_not_lt hc)] at h1
    exact List.cons_ne_nil _ _ h1
  · intro he
    rw [if_pos (by rw [he]; decide)] at h2
    exact List.cons_ne_nil _ _ h2
  · by_contra hc
    rw [if_pos (lt_of_not_le hc)] at h3
    exact List.cons_ne_nil _ _ h3
  · by_contra hc
    rw [if_neg hc] at h4
    exact List.cons_ne_nil _ _ h4

/-- C6: a POST body failing the schema (non-positive amount, empty or
over-long description, or category outside the enum) is answered with 400,
carrying a non-empty structured list of field-level issues, without creating
anything: the store state is unchanged. -/
theorem post_invalid_rejected (s : MemStorage) (amount : ℚ)
    (descr cat : String) (now : Nat)
    (hinv : ¬(0 < amount ∧ descr ≠ "" ∧ descr.length ≤ 100 ∧
      cat ∈ categoryEnum)) :
    (postExpensesHandler s amount descr cat now).status = 400 ∧
      (postExpensesHandler s amount descr cat now).errors ≠ [] ∧
      (postExpensesHandler s amount descr cat now).state = s ∧
      (postExpensesHandler s amount descr cat now).body = none := by
  have herr : validateInsertExpense amount descr cat ≠ [] := by
    intro hnil
    exact hinv (validate_eq_nil amount descr cat hnil)
  have hemp : (validateInsertExpense amount descr cat).isEmpty = false := by
    rw [Bool.eq_false_iff]
    intro hc
    exact herr (List.isEmpty_iff.mp hc)
  rw [postExpensesHandler]
  rw [hemp]
  exact ⟨rfl, herr, rfl, rfl⟩

/-- Witness for C6: a zero amount on the fresh store. -/
theorem post_invalid_rejected_witness :
    (postExpensesHandler MemStorage.init (mkRat 0 1) "Lunch" "food" 0).status = 400 ∧
      (postExpensesHandler MemStorage.init (mkRat 0 1) "Lunch" "food" 0).errors ≠ [] ∧
      (postExpensesHandler MemStorage.init (mkRat 0 1) "Lunch" "food" 0).state =
        MemStorage.init ∧
      (postExpensesHandler MemStorage.init (mkRat 0 1) "Lunch" "food" 0).body = none :=
  post_invalid_rejected MemStorage.init (mkRat 0 1) "Lunch" "food" 0 (by decide)

/-! ### C9: listing length under create and delete -/

/-- Store invariant maintained by every operation: keys are pairwise distinct
and strictly below the id counter. -/
def StoreInv (s : MemStorage) : Prop :=
  (s.expenses.map Prod.fst).Nodup ∧
    ∀ k ∈ s.expenses.map Prod.fst, k < s.currentId

theorem storeInv_init : StoreInv MemStorage.init :=
  ⟨List.nodup_nil, by intro k hk; simp [MemStorage.init] at hk⟩

theorem currentId_fresh (s : MemStorage) (h : StoreInv s) :
    s.expenses.any (fun p => p.1 == s.currentId) = false := by
  rw [List.any_eq_false]
  intro p hp
  have hk : p.1 ∈ s.expenses.map Prod.fst := List.mem_map_of_mem Prod.fst hp
  have := h.2 p.1 hk
  simp only [beq_iff_eq]
  omega

theorem storeInv_applyOp (s : MemStorage) (op : Op) (h : StoreInv s) :
    StoreInv (applyOp s op) := by
  cases op with
  | create p now =>
    have hfresh := currentId_fresh s h
    have hexp : (applyOp s (Op.create p now)).expenses =
        s.expenses ++ [(s.currentId,
          { id := s.currentId, amount := jsNumToString p.amount,
            descr := p.descr, category := p.category, createdAt := now })] := by
      simp [applyOp, createExpense, mapSet, hfresh]
    constructor
    · rw [hexp, List.map_append, List.nodup_append]
      refine ⟨h.1, List.nodup_singleton _, ?_⟩
      intro a ha hb
      have := h.2 a ha
      simp only [List.map_cons, List.map_nil, List.mem_singleton] at hb
      omega
    · intro k hk
      rw [hexp, List.map_append, List.mem_append] at hk
      have hcur : (applyOp s (Op.create p now)).currentId = s.currentId + 1 := rfl
      rw [hcur]
      rcases hk with hk | hk
      · exact Nat.lt_succ_of_lt (h.2 k hk)
      · simp only [List.map_cons, List.map_nil, List.mem_singleton] at hk
        omega
  | delete id =>
    have hsub : (applyOp s (Op.delete id)).expenses.Sublist s.expenses :=
      List.filter_sublist s.expenses
    constructor
    · exact (hsub.map Prod.fst).nodup h.1
    · intro k hk
      exact h.2 k (((hsub.map Prod.fst).subset) hk)

theorem storeInv_runOps : ∀ (ops : List Op) (s : MemStorage),
    StoreInv s → StoreInv (runOps s ops)
  | [], _, h => h
  | op :: rest, s, h => storeInv_runOps rest _ (storeInv_applyOp s op h)

theorem reachable_storeInv (s : MemStorage) (h : Reachable s) : StoreInv s := by
  obtain ⟨ops, rfl⟩ := h
  exact storeInv_runOps ops MemStorage.init storeInv_init

theorem getExpenses_length (s : MemStorage) :
    (getExpenses s).length = s.expenses.length := by
  rw [getExpenses, (List.perm_insertionSort createdDesc _).length_eq,
    mapValues, List.length_map]

theorem filter_ne_length (m : ExpenseMap) (id : Int)
    (hn : (m.map Prod.fst).Nodup)
    (hmem : m.any (fun p => ((p.1 : Int) == id)) = true) :
    (m.filter (fun p => ((p.1 : Int) != id))).length + 1 = m.length := by
  induction m with
  | nil => simp at hmem
  | cons a t ih =>
    rw [List.map_cons, List.nodup_cons] at hn
    by_cases hid : ((a.1 : Int) == id) = true
    · have haid : (a.1 : Int) = id := by simpa using hid
      have hkeep : t.filter (fun p => ((p.1 : Int) != id)) = t := by
        rw [List.filter_eq_self]
        intro p hp
        have hne : p.1 ≠ a.1 := by
          intro he
          exact hn.1 (he ▸ List.mem_map_of_mem Prod.fst hp)
        rw [← haid]
        simp only [bne_iff_ne, ne_eq]
        intro hc
        exact hne (by exact_mod_cast hc)
      rw [List.filter_cons, if_neg (by simp [bne, hid]), hkeep]
      simp
    · have hmem' : t.any (fun p => ((p.1 : Int) == id)) = true := by
        simpa [List.any_cons, hid] using hmem
      rw [List.filter_cons, if_pos (by simp [bne, hid])]
      rw [List.length_cons, ih hn.2 hmem', List.length_cons]

/-- C9: on any reachable store state, a create grows the listing by exactly
one record, and a delete of a present id shrinks it by exactly one. -/
theorem list_length_create_delete (s : MemStorage) (p : InsertExpense)
    (now : Nat) (id : Int) (hR : Reachable s) :
    (getExpenses (createExpense s p now).2).length =
        (getExpenses s).length + 1 ∧
      (getExpense s id ≠ none →
        (getExpenses (deleteExpense s id).2).length + 1 =
          (getExpenses s).length) := by
  obtain ⟨hnd, hlt⟩ := reachable_storeInv s hR
  constructor
  · have hfresh := currentId_fresh s ⟨hnd, hlt⟩
    rw [getExpenses_length, getExpenses_length]
    simp [createExpense, mapSet, hfresh]
  · intro hid
    have hany : s.expenses.any (fun p => ((p.1 : Int) == id)) = true := by
      by_contra hc
      exact hid ((getExpense_none_iff_any s id).mpr (Bool.eq_false_iff.mpr hc))
    rw [getExpenses_length, getExpenses_length]
    exact filter_ne_length s.expenses id hnd hany

/-- Witness for C9 on the reachable one-expense store, creating a second
expense and deleting id 1. -/
theorem list_length_create_delete_witness :
    (getExpenses (createExpense
        (runOps MemStorage.init [Op.create ⟨mkRat 2 1, "tea", "food"⟩ 0])
        ⟨mkRat 3 1, "bus", "transport"⟩ 5).2).length =
      (getExpenses
        (runOps MemStorage.init [Op.create ⟨mkRat 2 1, "tea", "food"⟩ 0])).length + 1 ∧
    (getExpenses (deleteExpense
        (runOps MemStorage.init [Op.create ⟨mkRat 2 1, "tea", "food"⟩ 0]) 1).2).length + 1 =
      (getExpenses
        (runOps MemStorage.init [Op.create ⟨mkRat 2 1, "tea", "food"⟩ 0])).length :=
  ⟨(list_length_create_delete
      (runOps MemStorage.init [Op.create ⟨mkRat 2 1, "tea", "food"⟩ 0])
      ⟨mkRat 3 1, "bus", "transport"⟩ 5 1
      ⟨[Op.create ⟨mkRat 2 1, "tea", "food"⟩ 0], rfl⟩).1,
   (list_length_create_delete
      (runOps MemStorage.init [Op.create ⟨mkRat 2 1, "tea", "food"⟩ 0])
      ⟨mkRat 3 1, "bus", "transport"⟩ 5 1
      ⟨[Op.create ⟨mkRat 2 1, "tea", "food"⟩ 0], rfl⟩).2 (by decide)⟩

/-! ### C3: the stored amount string -/

/-- C3: evaluating `createExpense` at the specification scenario payload
(amount 250.50, that is the exact rational 501/2, description "Lunch",
category "food") on the fresh store: the stored and returned amount string is
"250.5" — `Number.prototype.toString` drops the trailing zero — and not the
"250.50" with two fixed decimal places that the specification requires. -/
theorem create_amount_drops_trailing_zero :
    (createExpense MemStorage.init ⟨mkRat 501 2, "Lunch", "food"⟩ 0).1.amount =
        "250.5" ∧
      (createExpense MemStorage.init ⟨mkRat 501 2, "Lunch", "food"⟩ 0).1.amount ≠
        "250.50" := by
  decide

/-! ### C10: empty category query parameter -/

/-- C10: a present-but-empty `category` query parameter is falsy in the guard
`category && typeof category` of the route, so the handler answers with the
full unfiltered listing, exactly as with no parameter at all. -/
theorem empty_category_full_list (s : MemStorage) :
    listExpensesHandler s (some "") = getExpenses s ∧
      listExpensesHandler s none = getExpenses s :=
  ⟨rfl, rfl⟩
